import Mathlib

/-!
Verification of the GameCube-intro cube animator.

The source is a single React component (`App.tsx`, falling/rolling variant)
plus a second, simpler spinning-cube variant.  The animator's mutable closure
state is embedded shallowly:

* `time`, `landed`, `rolling`, `cubeX`, `cubeZ` are the closure variables of
  the falling variant; rational time and grid coordinates model the exact
  arithmetic of the source (`time += 1/60`, `cubeX += dx * cubeSize`, ...).
* `cube.position` and `cube.rotation` are triples of exact reals, since the
  roll animation evaluates `Math.cos`/`Math.sin`.
* Every angle the program ever stores or compares is a rational multiple of
  `π` (`rollSpeed = π/20`, `maxAngle = π/2`, angles are sums of `rollSpeed`),
  so angles are represented by their rational coefficient of `π`; a stored
  coefficient `q` denotes the radian value `q * π`.  Comparisons of
  coefficients agree with comparisons of the radian values because `π > 0`.
-/

namespace GameCube

/-- Edge length of the large translucent platform cube: `largeCubeSize = 3`. -/
def largeCubeSize : ℚ := 3

/-- Edge length of the small falling cube: `cubeSize = 1`. -/
def cubeSize : ℚ := 1

/-- Duration of the falling animation: `fallDuration = 1.5`. -/
def fallDuration : ℚ := 1.5

/-- Initial height of the falling cube: `startY = 8`. -/
def startY : ℚ := 8

/-- Resting height of the cube on the platform: `targetY = cubeSize / 2`. -/
def targetY : ℚ := cubeSize / 2

/-- Per-frame roll increment.  The source sets `rollSpeed = Math.PI / 20`;
represented by its coefficient of `π`, namely `1/20`. -/
def rollSpeed : ℚ := 1 / 20

/-- Cap of a roll: `maxAngle = Math.PI / 2`, represented by its coefficient
of `π`, namely `1/2`. -/
def maxAngle : ℚ := 1 / 2

/-- `easeOutBounce` from the source, a piecewise quadratic bounce easing.
The source updates `t` in place (`t -= 1.5 / d1`); written here with the
subtraction inlined. -/
noncomputable def easeOutBounce (t : ℝ) : ℝ :=
  let n1 : ℝ := 7.5625
  let d1 : ℝ := 2.75
  if t < 1 / d1 then n1 * t * t
  else if t < 2 / d1 then n1 * (t - 1.5 / d1) * (t - 1.5 / d1) + 0.75
  else if t < 2.5 / d1 then n1 * (t - 2.25 / d1) * (t - 2.25 / d1) + 0.9375
  else n1 * (t - 2.625 / d1) * (t - 2.625 / d1) + 0.984375

/-- `easeOutQuad` from the source: `1 - (1 - t) * (1 - t)`. -/
noncomputable def easeOutQuad (t : ℝ) : ℝ := 1 - (1 - t) * (1 - t)

/-- Components of a three.js `Vector3` / `Euler`, as exact reals. -/
structure Vec3 where
  x : ℝ
  y : ℝ
  z : ℝ

/-- The transient rolling record `{ dx, dz, angle: 0 }`.  `angle` is stored
as its coefficient of `π` (see the file comment). -/
structure Roll where
  dx : ℚ
  dz : ℚ
  angle : ℚ
deriving DecidableEq

/-- The mutable closure state of the falling-cube animator: elapsed `time`,
the one-shot `landed` flag, the optional `rolling` record, the grid position
`(cubeX, cubeZ)`, and the mesh's `position` and `rotation`. -/
structure State where
  time : ℚ
  landed : Bool
  rolling : Option Roll
  cubeX : ℚ
  cubeZ : ℚ
  cubePos : Vec3
  cubeRot : Vec3

/-- The state right after setup: `cube.position.set(0, 8, -largeCubeSize/3)`,
default zero rotation, `time = 0`, `landed = false`, no rolling record, grid
position `(0, -largeCubeSize/3)`. -/
def initState : State where
  time := 0
  landed := false
  rolling := none
  cubeX := 0
  cubeZ := -largeCubeSize / 3
  cubePos := ⟨0, 8, (-largeCubeSize / 3 : ℚ)⟩
  cubeRot := ⟨0, 0, 0⟩

/-- `rollCube(dx, dz)` from the source: ignore the request unless the cube
has landed and no roll is in progress; reject destinations whose center
leaves the platform footprint; otherwise create the rolling record. -/
def rollCube (s : State) (dx dz : ℚ) : State :=
  if s.landed = false ∨ s.rolling.isSome then s
  else
    let newX := s.cubeX + dx * cubeSize
    let newZ := s.cubeZ + dz * cubeSize
    if |newX| > largeCubeSize / 2 - cubeSize / 2 ∨
        |newZ| > largeCubeSize / 2 - cubeSize / 2 then
      s
    else
      { s with rolling := some ⟨dx, dz, 0⟩ }

/-- The `// Falling` block of `animate()`: while not landed, advance `time`
and either interpolate `position.y` along the bounce curve with a small
sinusoidal rotation wobble, or snap to the target height, zero the rotation
and set `landed`. -/
noncomputable def fallFrame (s : State) : State :=
  if s.landed = false then
    let time := s.time + 1 / 60
    if time < fallDuration then
      let progress := time / fallDuration
      let eased := easeOutBounce (progress : ℝ)
      { s with
          time := time
          cubePos := { s.cubePos with
            y := (startY : ℝ) - ((startY : ℝ) - (targetY : ℝ)) * eased }
          cubeRot := { s.cubeRot with
            x := Real.sin ((time : ℝ) * 3) * 0.05
            z := Real.cos ((time : ℝ) * 2) * 0.05 } }
    else
      { s with
          time := time
          cubePos := { s.cubePos with y := (targetY : ℝ) }
          cubeRot := ⟨0, 0, 0⟩
          landed := true }
  else s

/-- The eased visual roll angle, in radians: the stored coefficient is
incremented, capped at `maxAngle`, and scaled by
`easeOutQuad(theta / maxAngle)` (`theta *= easeOutQuad(progress)` in the
source).  Takes the already-incremented coefficient. -/
noncomputable def rollTheta (angle : ℚ) : ℝ :=
  ((min angle maxAngle : ℚ) : ℝ) * Real.pi *
    easeOutQuad ((min angle maxAngle / maxAngle : ℚ) : ℝ)

/-- The `// Rolling` block of `animate()`: with an active rolling record,
increment the angle, compute the eased pivot-arc position and the signed
rotation, and on reaching `maxAngle` snap the grid position, position and
rotation and clear the record. -/
noncomputable def rollFrame (s : State) : State :=
  match s.rolling with
  | none => s
  | some r =>
    let angle := r.angle + rollSpeed
    let theta : ℝ := rollTheta angle
    let pivotOffset : ℝ := (cubeSize : ℝ) / 2
    let cosTheta := Real.cos theta
    let sinTheta := Real.sin theta
    let offsetX := (r.dx : ℝ) * pivotOffset * (1 - cosTheta)
    let offsetY := pivotOffset * sinTheta
    let offsetZ := (r.dz : ℝ) * pivotOffset * (1 - cosTheta)
    let s2 : State :=
      { s with
          rolling := some ⟨r.dx, r.dz, angle⟩
          cubePos := ⟨(s.cubeX : ℝ) + offsetX, (targetY : ℝ) + offsetY,
            (s.cubeZ : ℝ) + offsetZ⟩
          cubeRot :=
            if r.dx ≠ 0 then { s.cubeRot with z := -theta * (r.dx : ℝ) }
            else if r.dz ≠ 0 then { s.cubeRot with x := theta * (r.dz : ℝ) }
            else s.cubeRot }
    if angle ≥ maxAngle then
      let cubeX := s2.cubeX + r.dx * cubeSize
      let cubeZ := s2.cubeZ + r.dz * cubeSize
      { s2 with
          cubeX := cubeX
          cubeZ := cubeZ
          cubePos := ⟨(cubeX : ℝ), (targetY : ℝ), (cubeZ : ℝ)⟩
          cubeRot := ⟨0, 0, 0⟩
          rolling := none }
    else s2

/-- One invocation of `animate()` (one animation frame), excluding the
render call: the falling block runs first, then the rolling block. -/
noncomputable def animate (s : State) : State := rollFrame (fallFrame s)

/-- The four directional keys `w`, `s`, `a`, `d` map to the four unit roll
vectors passed to `rollCube`. -/
def keyDir (dx dz : ℚ) : Prop :=
  (dx = 0 ∧ dz = -1) ∨ (dx = 0 ∧ dz = 1) ∨ (dx = -1 ∧ dz = 0) ∨ (dx = 1 ∧ dz = 0)

/-- States reachable from setup by any interleaving of animation frames and
directional key presses. -/
inductive Reachable : State → Prop where
  | init : Reachable initState
  | frame {s : State} : Reachable s → Reachable (animate s)
  | key {s : State} {dx dz : ℚ} : keyDir dx dz → Reachable s →
      Reachable (rollCube s dx dz)

/-- The view state touched by the resize handler of the falling variant:
camera aspect ratio and renderer output size, alongside the animator state. -/
structure System where
  anim : State
  aspect : ℚ
  rendererWidth : ℚ
  rendererHeight : ℚ

/-- `handleResize` of the falling variant: recompute the camera aspect ratio
from the host's pixel dimensions and resize the renderer; nothing else. -/
def handleResize (w h : ℚ) (sys : System) : System :=
  { sys with aspect := w / h, rendererWidth := w, rendererHeight := h }

namespace Spin

/-- State of the simple spinning-cube variant: the cube's rotation plus the
camera aspect ratio and renderer output size. -/
structure System where
  rotX : ℚ
  rotY : ℚ
  aspect : ℚ
  rendererWidth : ℚ
  rendererHeight : ℚ

/-- One frame of the spinning variant: `rotation.x += 0.01`,
`rotation.y += 0.01`. -/
def animate (sys : System) : System :=
  { sys with rotX := sys.rotX + 0.01, rotY := sys.rotY + 0.01 }

/-- `handleResize` of the spinning variant: resize the renderer and
recompute the camera aspect ratio from the host's pixel dimensions. -/
def handleResize (w h : ℚ) (sys : System) : System :=
  { sys with rendererWidth := w, rendererHeight := h, aspect := w / h }

end Spin

/-! ### Frame equations -/

lemma fallFrame_landed (s : State) (h : s.landed = true) : fallFrame s = s := by
  simp [fallFrame, h]

lemma rollFrame_none (s : State) (h : s.rolling = none) : rollFrame s = s := by
  simp [rollFrame, h]

lemma animate_landed_idle (s : State) (hL : s.landed = true)
    (hr : s.rolling = none) : animate s = s := by
  rw [animate, fallFrame_landed s hL, rollFrame_none s hr]

lemma fallFrame_bounce (s : State) (hL : s.landed = false)
    (hlt : s.time + 1 / 60 < fallDuration) :
    fallFrame s =
      { s with
          time := s.time + 1 / 60
          cubePos := { s.cubePos with
            y := (startY : ℝ) - ((startY : ℝ) - (targetY : ℝ)) *
              easeOutBounce (((s.time + 1 / 60) / fallDuration : ℚ) : ℝ) }
          cubeRot := { s.cubeRot with
            x := Real.sin (((s.time + 1 / 60 : ℚ) : ℝ) * 3) * 0.05
            z := Real.cos (((s.time + 1 / 60 : ℚ) : ℝ) * 2) * 0.05 } } := by
  rw [fallFrame, if_pos hL, if_pos hlt]

lemma fallFrame_land (s : State) (hL : s.landed = false)
    (hge : fallDuration ≤ s.time + 1 / 60) :
    fallFrame s =
      { s with
          time := s.time + 1 / 60
          cubePos := { s.cubePos with y := (targetY : ℝ) }
          cubeRot := ⟨0, 0, 0⟩
          landed := true } := by
  rw [fallFrame, if_pos hL, if_neg (not_lt.mpr hge)]

lemma rollFrame_mid (s : State) (r : Roll) (hr : s.rolling = some r)
    (hlt : r.angle + rollSpeed < maxAngle) :
    rollFrame s =
      { s with
          rolling := some ⟨r.dx, r.dz, r.angle + rollSpeed⟩
          cubePos := ⟨(s.cubeX : ℝ) + (r.dx : ℝ) * ((cubeSize : ℝ) / 2) *
                (1 - Real.cos (rollTheta (r.angle + rollSpeed))),
              (targetY : ℝ) + ((cubeSize : ℝ) / 2) *
                Real.sin (rollTheta (r.angle + rollSpeed)),
              (s.cubeZ : ℝ) + (r.dz : ℝ) * ((cubeSize : ℝ) / 2) *
                (1 - Real.cos (rollTheta (r.angle + rollSpeed)))⟩
          cubeRot :=
            if r.dx ≠ 0 then
              { s.cubeRot with z := -(rollTheta (r.angle + rollSpeed)) * (r.dx : ℝ) }
            else if r.dz ≠ 0 then
              { s.cubeRot with x := rollTheta (r.angle + rollSpeed) * (r.dz : ℝ) }
            else s.cubeRot } := by
  simp only [rollFrame, hr]
  rw [if_neg (not_le.mpr hlt)]

lemma rollFrame_complete (s : State) (r : Roll) (hr : s.rolling = some r)
    (hge : r.angle + rollSpeed ≥ maxAngle) :
    rollFrame s =
      { s with
          cubeX := s.cubeX + r.dx * cubeSize
          cubeZ := s.cubeZ + r.dz * cubeSize
          cubePos := ⟨((s.cubeX + r.dx * cubeSize : ℚ) : ℝ), (targetY : ℝ),
            ((s.cubeZ + r.dz * cubeSize : ℚ) : ℝ)⟩
          cubeRot := ⟨0, 0, 0⟩
          rolling := none } := by
  simp only [rollFrame, hr]
  rw [if_pos hge]

lemma rollFrame_time (s : State) : (rollFrame s).time = s.time := by
  cases hr : s.rolling with
  | none => rw [rollFrame_none s hr]
  | some r =>
    by_cases hge : r.angle + rollSpeed ≥ maxAngle
    · rw [rollFrame_complete s r hr hge]
    · rw [rollFrame_mid s r hr (not_le.mp hge)]

lemma rollFrame_landed (s : State) : (rollFrame s).landed = s.landed := by
  cases hr : s.rolling with
  | none => rw [rollFrame_none s hr]
  | some r =>
    by_cases hge : r.angle + rollSpeed ≥ maxAngle
    · rw [rollFrame_complete s r hr hge]
    · rw [rollFrame_mid s r hr (not_le.mp hge)]

/-! ### Guard equations for `rollCube` -/

lemma rollCube_rejected_guard (s : State) (dx dz : ℚ)
    (h : s.landed = false ∨ s.rolling.isSome = true) : rollCube s dx dz = s := by
  simp only [rollCube]
  rw [if_pos h]

lemma rollCube_rejected_bounds (s : State) (dx dz : ℚ)
    (hg : ¬(s.landed = false ∨ s.rolling.isSome = true))
    (hb : |s.cubeX + dx * cubeSize| > largeCubeSize / 2 - cubeSize / 2 ∨
      |s.cubeZ + dz * cubeSize| > largeCubeSize / 2 - cubeSize / 2) :
    rollCube s dx dz = s := by
  simp only [rollCube]
  rw [if_neg hg, if_pos hb]

lemma rollCube_accepted (s : State) (dx dz : ℚ)
    (hg : ¬(s.landed = false ∨ s.rolling.isSome = true))
    (hb : ¬(|s.cubeX + dx * cubeSize| > largeCubeSize / 2 - cubeSize / 2 ∨
      |s.cubeZ + dz * cubeSize| > largeCubeSize / 2 - cubeSize / 2)) :
    rollCube s dx dz = { s with rolling := some ⟨dx, dz, 0⟩ } := by
  simp only [rollCube]
  rw [if_neg hg, if_neg hb]

/-! ### The inductive invariant of the animator -/

/-- Invariant preserved by frames and key presses: the grid position is an
integral point within the platform bound `1`; before landing, time is below
`fallDuration` and no roll exists; any live rolling record came from a
directional key and its destination passed the bounds check; and a landed,
idle cube rests exactly at `targetY` with zero rotation. -/
def Inv (s : State) : Prop :=
  (∃ m : ℤ, s.cubeX = (m : ℚ)) ∧ (∃ n : ℤ, s.cubeZ = (n : ℚ)) ∧
  |s.cubeX| ≤ 1 ∧ |s.cubeZ| ≤ 1 ∧
  (s.landed = false → s.time < fallDuration ∧ s.rolling = none) ∧
  (∀ r : Roll, s.rolling = some r → keyDir r.dx r.dz ∧
    |s.cubeX + r.dx * cubeSize| ≤ 1 ∧ |s.cubeZ + r.dz * cubeSize| ≤ 1) ∧
  (s.landed = true → s.rolling = none →
    s.cubePos.y = (targetY : ℝ) ∧ s.cubeRot = ⟨0, 0, 0⟩)

lemma keyDir_cases (dx dz : ℚ) (h : keyDir dx dz) :
    (dx = 0 ∨ dx = -1 ∨ dx = 1) ∧ (dz = 0 ∨ dz = -1 ∨ dz = 1) := by
  rcases h with ⟨h1, h2⟩ | ⟨h1, h2⟩ | ⟨h1, h2⟩ | ⟨h1, h2⟩ <;>
    exact ⟨by simp [h1], by simp [h2]⟩

lemma int_shift (c d : ℚ) (hc : ∃ m : ℤ, c = (m : ℚ))
    (hd : d = 0 ∨ d = -1 ∨ d = 1) :
    ∃ m' : ℤ, c + d * cubeSize = (m' : ℚ) := by
  obtain ⟨m, hm⟩ := hc
  rcases hd with h | h | h
  · exact ⟨m, by rw [hm, h, cubeSize]; ring⟩
  · exact ⟨m - 1, by rw [hm, h, cubeSize]; push_cast; ring⟩
  · exact ⟨m + 1, by rw [hm, h, cubeSize]; push_cast; ring⟩

lemma Inv_init : Inv initState := by
  refine ⟨⟨0, by norm_num [initState]⟩,
    ⟨-1, by norm_num [initState, largeCubeSize]⟩,
    by norm_num [initState],
    by norm_num [initState, largeCubeSize], ?_, ?_, ?_⟩
  · intro _
    exact ⟨by norm_num [initState, fallDuration], rfl⟩
  · intro r hc
    exact Option.noConfusion hc
  · intro hc
    exact Bool.noConfusion hc

lemma Inv_animate (s : State) (h : Inv s) : Inv (animate s) := by
  obtain ⟨st, sl, sr, sx, sz, sp, srot⟩ := s
  obtain ⟨hx, hz, hbx, hbz, hfall, hroll, hrest⟩ := h
  cases sl with
  | true =>
    rw [animate, fallFrame_landed _ rfl]
    cases sr with
    | none =>
      rw [rollFrame_none _ rfl]
      exact ⟨hx, hz, hbx, hbz, hfall, hroll, hrest⟩
    | some r =>
      obtain ⟨hkd, hrx, hrz⟩ := hroll r rfl
      obtain ⟨hdx3, hdz3⟩ := keyDir_cases r.dx r.dz hkd
      by_cases hge : r.angle + rollSpeed ≥ maxAngle
      · rw [rollFrame_complete _ r rfl hge]
        refine ⟨int_shift sx r.dx hx hdx3, int_shift sz r.dz hz hdz3,
          hrx, hrz, ?_, ?_, ?_⟩
        · intro hc
          exact Bool.noConfusion hc
        · intro r' hc
          exact Option.noConfusion hc
        · exact fun _ _ => ⟨rfl, rfl⟩
      · rw [rollFrame_mid _ r rfl (not_le.mp hge)]
        refine ⟨hx, hz, hbx, hbz, ?_, ?_, ?_⟩
        · intro hc
          exact Bool.noConfusion hc
        · intro r' hc
          injection hc with hc'
          subst hc'
          exact ⟨hkd, hrx, hrz⟩
        · intro _ hc
          exact Option.noConfusion hc
  | false =>
    obtain ⟨htlt, hnone⟩ := hfall rfl
    obtain rfl : sr = none := hnone
    rw [animate]
    by_cases hge : fallDuration ≤ st + 1 / 60
    · rw [fallFrame_land _ rfl hge, rollFrame_none _ rfl]
      refine ⟨hx, hz, hbx, hbz, ?_, ?_, ?_⟩
      · intro hc
        exact Bool.noConfusion hc
      · intro r' hc
        exact Option.noConfusion hc
      · exact fun _ _ => ⟨rfl, rfl⟩
    · rw [fallFrame_bounce _ rfl (not_le.mp hge), rollFrame_none _ rfl]
      refine ⟨hx, hz, hbx, hbz, ?_, ?_, ?_⟩
      · intro _
        exact ⟨not_le.mp hge, rfl⟩
      · intro r' hc
        exact Option.noConfusion hc
      · intro hc
        exact Bool.noConfusion hc

lemma Inv_rollCube (s : State) (dx dz : ℚ) (hkd : keyDir dx dz)
    (h : Inv s) : Inv (rollCube s dx dz) := by
  by_cases hg : s.landed = false ∨ s.rolling.isSome = true
  · rw [rollCube_rejected_guard s dx dz hg]
    exact h
  · by_cases hb : |s.cubeX + dx * cubeSize| > largeCubeSize / 2 - cubeSize / 2 ∨
        |s.cubeZ + dz * cubeSize| > largeCubeSize / 2 - cubeSize / 2
    · rw [rollCube_rejected_bounds s dx dz hg hb]
      exact h
    · rw [rollCube_accepted s dx dz hg hb]
      push_neg at hb
      obtain ⟨st, sl, sr, sx, sz, sp, srot⟩ := s
      obtain ⟨hx, hz, hbx, hbz, hfall, hroll, hrest⟩ := h
      have hb1 : largeCubeSize / 2 - cubeSize / 2 = 1 := by
        rw [largeCubeSize, cubeSize]; norm_num
      rw [hb1] at hb
      refine ⟨hx, hz, hbx, hbz, ?_, ?_, ?_⟩
      · intro hc
        have hsl : sl = false := hc
        rw [hsl] at hg
        exact absurd (Or.inl rfl) hg
      · intro r' hc
        injection hc with hc'
        subst hc'
        exact ⟨hkd, hb.1, hb.2⟩
      · intro _ hc
        exact Option.noConfusion hc

lemma reachable_inv (s : State) (hs : Reachable s) : Inv s := by
  induction hs with
  | init => exact Inv_init
  | frame _ ih => exact Inv_animate _ ih
  | key hkd _ ih => exact Inv_rollCube _ _ _ hkd ih

/-! ### C1: acceptance condition of `rollCube` -/

/-- C1.  A roll request `rollCube(dx, dz)` is accepted — the rolling record
`{dx, dz, angle: 0}` is created — if and only if the cube has landed, no roll
is in progress, and the destination passes the bounds check
`|cubeX + dx*cubeSize| ≤ largeCubeSize/2 - cubeSize/2` (and likewise for z);
in every other case the state is returned unchanged.  In particular the grid
position is never changed by a request, and since `rolling` is a single
optional record, at most one rolling operation is active at a time. -/
theorem rollCube_accept_iff (s : State) (dx dz : ℚ) :
    rollCube s dx dz =
      (if s.landed = true ∧ s.rolling = none ∧
          |s.cubeX + dx * cubeSize| ≤ largeCubeSize / 2 - cubeSize / 2 ∧
          |s.cubeZ + dz * cubeSize| ≤ largeCubeSize / 2 - cubeSize / 2 then
        { s with rolling := some ⟨dx, dz, 0⟩ }
      else s) ∧
    (rollCube s dx dz).cubeX = s.cubeX ∧ (rollCube s dx dz).cubeZ = s.cubeZ := by
  refine ⟨?_, ?_, ?_⟩
  · by_cases hC : s.landed = true ∧ s.rolling = none ∧
        |s.cubeX + dx * cubeSize| ≤ largeCubeSize / 2 - cubeSize / 2 ∧
        |s.cubeZ + dz * cubeSize| ≤ largeCubeSize / 2 - cubeSize / 2
    · rw [if_pos hC]
      obtain ⟨hL, hN, hx, hz⟩ := hC
      simp only [rollCube, hL, hN]
      rw [if_neg (by simp),
        if_neg (not_or.mpr ⟨not_lt.mpr hx, not_lt.mpr hz⟩)]
    · rw [if_neg hC]
      by_cases hL : s.landed = true
      · cases hN : s.rolling with
        | some r => simp [rollCube, hN]
        | none =>
          have hB : |s.cubeX + dx * cubeSize| > largeCubeSize / 2 - cubeSize / 2 ∨
              |s.cubeZ + dz * cubeSize| > largeCubeSize / 2 - cubeSize / 2 := by
            by_contra hB
            push_neg at hB
            exact hC ⟨hL, hN, hB.1, hB.2⟩
          simp only [rollCube, hL, hN]
          rw [if_neg (by simp), if_pos hB]
      · have hL' : s.landed = false := by simpa using hL
        simp [rollCube, hL']
  · simp only [rollCube]; split_ifs <;> rfl
  · simp only [rollCube]; split_ifs <;> rfl

/-! ### C7: time monotone then frozen; `landed` one-shot -/

/-- C7.  On each frame, elapsed time advances by exactly `1/60` while the
cube has not landed and is frozen once it has; `landed` becomes (and stays)
true exactly on the first frame where the advanced time reaches
`fallDuration`. -/
theorem frame_time_landed (s : State) :
    ((animate s).time = if s.landed = true then s.time else s.time + 1 / 60) ∧
    ((animate s).landed = true ↔
      (s.landed = true ∨ fallDuration ≤ s.time + 1 / 60)) := by
  rw [animate]
  by_cases hL : s.landed = true
  · rw [fallFrame_landed s hL, rollFrame_time, rollFrame_landed]
    exact ⟨by rw [if_pos hL], iff_of_true hL (Or.inl hL)⟩
  · have hL' : s.landed = false := by simpa using hL
    by_cases hge : fallDuration ≤ s.time + 1 / 60
    · rw [fallFrame_land s hL' hge, rollFrame_time, rollFrame_landed]
      exact ⟨by rw [if_neg hL], iff_of_true rfl (Or.inr hge)⟩
    · rw [fallFrame_bounce s hL' (not_le.mp hge), rollFrame_time,
        rollFrame_landed]
      exact ⟨by rw [if_neg hL], iff_of_false hL (not_or.mpr ⟨hL, hge⟩)⟩

/-! ### C8: resize recomputes aspect and renderer size only -/

/-- C8.  For host pixel dimensions `(w, h)` with `h` nonzero, the resize
handler sets the camera aspect ratio to exactly `w / h` and the renderer
output size to exactly `(w, h)`, and changes no animator state — in the
falling variant and in the spinning variant alike. -/
theorem resize_exact (w h : ℚ) (sys : System) (ssys : Spin.System)
    (_hh : h ≠ 0) :
    (handleResize w h sys).aspect = w / h ∧
    (handleResize w h sys).rendererWidth = w ∧
    (handleResize w h sys).rendererHeight = h ∧
    (handleResize w h sys).anim = sys.anim ∧
    (Spin.handleResize w h ssys).aspect = w / h ∧
    (Spin.handleResize w h ssys).rendererWidth = w ∧
    (Spin.handleResize w h ssys).rendererHeight = h ∧
    (Spin.handleResize w h ssys).rotX = ssys.rotX ∧
    (Spin.handleResize w h ssys).rotY = ssys.rotY :=
  ⟨rfl, rfl, rfl, rfl, rfl, rfl, rfl, rfl, rfl⟩

/-! ### C2: exact snap when a roll completes -/

/-- C2.  On the frame where an accepted roll's angle reaches the `maxAngle`
cap, the grid position moves by exactly one unit in the roll direction, the
cube's position is set exactly to `(cubeX, targetY, cubeZ)`, its rotation is
set exactly to zero, and the rolling record is cleared (so a later request
is evaluated fresh); `time` and `landed` are untouched. -/
theorem roll_complete_snap (s : State) (dx dz a : ℚ) (hL : s.landed = true)
    (hr : s.rolling = some ⟨dx, dz, a⟩) (hge : a + rollSpeed ≥ maxAngle) :
    animate s =
      { s with
          cubeX := s.cubeX + dx * cubeSize
          cubeZ := s.cubeZ + dz * cubeSize
          cubePos := ⟨((s.cubeX + dx * cubeSize : ℚ) : ℝ), (targetY : ℝ),
            ((s.cubeZ + dz * cubeSize : ℚ) : ℝ)⟩
          cubeRot := ⟨0, 0, 0⟩
          rolling := none } := by
  rw [animate, fallFrame_landed s hL, rollFrame_complete s ⟨dx, dz, a⟩ hr hge]

/-- A concrete landed state one frame from roll completion
(angle `9/20 · π`, direction `(1, 0)`). -/
noncomputable def nearDoneState : State :=
  { time := 3/2, landed := true, rolling := some ⟨1, 0, 9/20⟩,
    cubeX := 0, cubeZ := -1, cubePos := ⟨0, 1/2, -1⟩, cubeRot := ⟨0, 0, 0⟩ }

lemma nearDone_angle : (9 : ℚ)/20 + rollSpeed ≥ maxAngle := by
  rw [rollSpeed, maxAngle]; norm_num

/-- Witness for C2 at `nearDoneState`. -/
theorem roll_complete_snap_witness :
    animate nearDoneState =
      { nearDoneState with
          cubeX := nearDoneState.cubeX + 1 * cubeSize
          cubeZ := nearDoneState.cubeZ + 0 * cubeSize
          cubePos := ⟨((nearDoneState.cubeX + 1 * cubeSize : ℚ) : ℝ),
            (targetY : ℝ), ((nearDoneState.cubeZ + 0 * cubeSize : ℚ) : ℝ)⟩
          cubeRot := ⟨0, 0, 0⟩
          rolling := none } :=
  roll_complete_snap nearDoneState 1 0 (9/20) rfl rfl nearDone_angle

/-! ### C5: per-frame roll kinematics -/

/-- C5.  On a frame with an active roll that does not yet complete, the
stored angle grows by exactly `rollSpeed`; the visual angle is the capped
angle passed through `easeOutQuad` (made explicit by `rollTheta`); the cube
pivots on its bottom edge — position
`(cubeX + dx·(cubeSize/2)·(1-cos θ), targetY + (cubeSize/2)·sin θ,
cubeZ + dz·(cubeSize/2)·(1-cos θ))` — and the rotation about the roll axis
is the visual angle signed by the direction. -/
theorem roll_frame_kinematics (s : State) (dx dz a : ℚ) (hL : s.landed = true)
    (hr : s.rolling = some ⟨dx, dz, a⟩) (hlt : a + rollSpeed < maxAngle) :
    (animate s).rolling = some ⟨dx, dz, a + rollSpeed⟩ ∧
    (animate s).cubePos.x = (s.cubeX : ℝ) + (dx : ℝ) * ((cubeSize : ℝ) / 2) *
      (1 - Real.cos (rollTheta (a + rollSpeed))) ∧
    (animate s).cubePos.y = (targetY : ℝ) + ((cubeSize : ℝ) / 2) *
      Real.sin (rollTheta (a + rollSpeed)) ∧
    (animate s).cubePos.z = (s.cubeZ : ℝ) + (dz : ℝ) * ((cubeSize : ℝ) / 2) *
      (1 - Real.cos (rollTheta (a + rollSpeed))) ∧
    (dx ≠ 0 → (animate s).cubeRot.z = -(rollTheta (a + rollSpeed)) * (dx : ℝ)) ∧
    (dx = 0 → dz ≠ 0 →
      (animate s).cubeRot.x = rollTheta (a + rollSpeed) * (dz : ℝ)) := by
  rw [animate, fallFrame_landed s hL, rollFrame_mid s ⟨dx, dz, a⟩ hr hlt]
  refine ⟨rfl, rfl, rfl, rfl, ?_, ?_⟩
  · intro hdx
    simp only [if_pos hdx]
  · intro hdx hdz
    simp only [hdx]
    rw [if_neg (by simp), if_pos hdz]

/-- A concrete landed state with a fresh roll in direction `(1, 0)`. -/
noncomputable def freshRollState : State :=
  { time := 3/2, landed := true, rolling := some ⟨1, 0, 0⟩,
    cubeX := 0, cubeZ := -1, cubePos := ⟨0, 1/2, -1⟩, cubeRot := ⟨0, 0, 0⟩ }

lemma freshRoll_angle : (0 : ℚ) + rollSpeed < maxAngle := by
  rw [rollSpeed, maxAngle]; norm_num

/-- Witness for C5 at `freshRollState`: the stored angle after one frame. -/
theorem roll_frame_kinematics_witness :
    (animate freshRollState).rolling = some ⟨1, 0, 0 + rollSpeed⟩ :=
  (roll_frame_kinematics freshRollState 1 0 0 rfl rfl freshRoll_angle).1

/-! ### Iterating frames: the fall and a full roll -/

lemma reachable_iterate (n : ℕ) (s : State) (hs : Reachable s) :
    Reachable ((animate)^[n] s) := by
  induction n with
  | zero => simpa using hs
  | succ k ih =>
    rw [Function.iterate_succ_apply']
    exact Reachable.frame ih

/-- During the first 89 frames the cube is still falling: time is `k/60`,
nothing has landed, no roll exists, and only `position.y` and the wobble
components of the rotation vary. -/
lemma fall_phase (k : ℕ) (hk : k ≤ 89) :
    ∃ y rx rz : ℝ,
      (animate)^[k] initState =
        { time := (k : ℚ)/60, landed := false, rolling := none, cubeX := 0,
          cubeZ := -1, cubePos := ⟨0, y, -1⟩, cubeRot := ⟨rx, 0, rz⟩ } := by
  induction k with
  | zero =>
    refine ⟨8, 0, 0, ?_⟩
    simp only [Function.iterate_zero_apply, initState, largeCubeSize,
      State.mk.injEq, Vec3.mk.injEq]
    norm_num
  | succ k ih =>
    obtain ⟨y, rx, rz, hstate⟩ := ih (le_trans (Nat.le_succ k) hk)
    have hk88 : (k : ℚ) ≤ 88 := by exact_mod_cast (by omega : k ≤ 88)
    have hlt : (k : ℚ)/60 + 1/60 < fallDuration := by
      rw [fallDuration]; norm_num; linarith
    refine ⟨(startY : ℝ) - ((startY : ℝ) - (targetY : ℝ)) *
        easeOutBounce ((((k : ℚ)/60 + 1/60) / fallDuration : ℚ) : ℝ),
      Real.sin ((((k : ℚ)/60 + 1/60 : ℚ) : ℝ) * 3) * 0.05,
      Real.cos ((((k : ℚ)/60 + 1/60 : ℚ) : ℝ) * 2) * 0.05, ?_⟩
    rw [Function.iterate_succ_apply', hstate, animate,
      fallFrame_bounce _ rfl hlt, rollFrame_none _ rfl]
    simp only [State.mk.injEq, Vec3.mk.injEq, and_true, true_and]
    push_cast
    ring

/-- Frame 90 lands the cube: time is frozen at `fallDuration`, the position
snaps to `(0, targetY, -1)` and the rotation to zero. -/
lemma fall_landed :
    (animate)^[90] initState =
      { time := 3/2, landed := true, rolling := none, cubeX := 0, cubeZ := -1,
        cubePos := ⟨0, (targetY : ℝ), -1⟩, cubeRot := ⟨0, 0, 0⟩ } := by
  obtain ⟨y, rx, rz, h89⟩ := fall_phase 89 (le_refl 89)
  have hge : fallDuration ≤ (89 : ℚ)/60 + 1/60 := by
    rw [fallDuration]; norm_num
  rw [show (90 : ℕ) = 89 + 1 from rfl, Function.iterate_succ_apply', h89,
    animate, fallFrame_land _ rfl (by push_cast at hge ⊢; exact hge),
    rollFrame_none _ rfl]
  simp only [State.mk.injEq, Vec3.mk.injEq]
  norm_num

/-- During the first 9 frames of a fresh roll the stored angle is `k/20·π`
and only the angle, position and rotation vary. -/
lemma roll_phase (s : State) (dx dz : ℚ) (hL : s.landed = true)
    (hr : s.rolling = some ⟨dx, dz, 0⟩) (k : ℕ) (hk : k ≤ 9) :
    ∃ p q : Vec3,
      (animate)^[k] s =
        { s with
            rolling := some ⟨dx, dz, (k : ℚ)/20⟩
            cubePos := p
            cubeRot := q } := by
  induction k with
  | zero =>
    refine ⟨s.cubePos, s.cubeRot, ?_⟩
    rw [show ((0 : ℕ) : ℚ)/20 = 0 by norm_num]
    rw [Function.iterate_zero_apply]
    cases s
    simp_all
  | succ k ih =>
    obtain ⟨p, q, hstate⟩ := ih (le_trans (Nat.le_succ k) hk)
    have hk8 : (k : ℚ) ≤ 8 := by exact_mod_cast (by omega : k ≤ 8)
    have hmid : (k : ℚ)/20 + rollSpeed < maxAngle := by
      rw [rollSpeed, maxAngle]; linarith
    have hLk : ((animate)^[k] s).landed = true := by rw [hstate]; exact hL
    have hrk : ((animate)^[k] s).rolling = some ⟨dx, dz, (k : ℚ)/20⟩ := by
      rw [hstate]
    refine ⟨⟨(s.cubeX : ℝ) + (dx : ℝ) * ((cubeSize : ℝ) / 2) *
        (1 - Real.cos (rollTheta ((k : ℚ)/20 + rollSpeed))),
      (targetY : ℝ) + ((cubeSize : ℝ) / 2) *
        Real.sin (rollTheta ((k : ℚ)/20 + rollSpeed)),
      (s.cubeZ : ℝ) + (dz : ℝ) * ((cubeSize : ℝ) / 2) *
        (1 - Real.cos (rollTheta ((k : ℚ)/20 + rollSpeed)))⟩,
      (if dx ≠ 0 then
        { q with z := -(rollTheta ((k : ℚ)/20 + rollSpeed)) * (dx : ℝ) }
      else if dz ≠ 0 then
        { q with x := rollTheta ((k : ℚ)/20 + rollSpeed) * (dz : ℝ) }
      else q), ?_⟩
    rw [Function.iterate_succ_apply', animate, fallFrame_landed _ hLk,
      rollFrame_mid _ ⟨dx, dz, (k : ℚ)/20⟩ hrk hmid, hstate]
    simp only [State.mk.injEq, Vec3.mk.injEq, Option.some.injEq,
      Roll.mk.injEq, and_true, true_and]
    rw [rollSpeed]
    push_cast
    ring

/-- After exactly 10 frames a fresh roll completes: the grid position moves
one unit, position and rotation snap, and the rolling record is cleared. -/
lemma roll_done (s : State) (dx dz : ℚ) (hL : s.landed = true)
    (hr : s.rolling = some ⟨dx, dz, 0⟩) :
    (animate)^[10] s =
      { s with
          cubeX := s.cubeX + dx * cubeSize
          cubeZ := s.cubeZ + dz * cubeSize
          cubePos := ⟨((s.cubeX + dx * cubeSize : ℚ) : ℝ), (targetY : ℝ),
            ((s.cubeZ + dz * cubeSize : ℚ) : ℝ)⟩
          cubeRot := ⟨0, 0, 0⟩
          rolling := none } := by
  obtain ⟨p, q, hstate⟩ := roll_phase s dx dz hL hr 9 (by norm_num)
  have hge : ((9 : ℕ) : ℚ)/20 + rollSpeed ≥ maxAngle := by
    rw [rollSpeed, maxAngle]; push_cast; norm_num
  have hL9 : ((animate)^[9] s).landed = true := by rw [hstate]; exact hL
  have hr9 : ((animate)^[9] s).rolling = some ⟨dx, dz, ((9 : ℕ) : ℚ)/20⟩ := by
    rw [hstate]
  rw [show (10 : ℕ) = 9 + 1 from rfl, Function.iterate_succ_apply',
    animate, fallFrame_landed _ hL9,
    rollFrame_complete _ ⟨dx, dz, ((9 : ℕ) : ℚ)/20⟩ hr9 hge, hstate]

/-! ### C10: every accepted roll terminates after exactly 10 frames -/

/-- C10.  A fresh roll's stored angle is `k · rollSpeed` for the first nine
frames (still active), and on the tenth frame the angle reaches `maxAngle`,
the completion branch fires and the rolling record is cleared — no roll
stays in progress indefinitely. -/
theorem roll_terminates_in_ten (s : State) (dx dz : ℚ) (hL : s.landed = true)
    (hr : s.rolling = some ⟨dx, dz, 0⟩) :
    (∀ k : ℕ, k ≤ 9 →
      ((animate)^[k] s).rolling = some ⟨dx, dz, (k : ℚ) * rollSpeed⟩) ∧
    ((animate)^[10] s).rolling = none := by
  constructor
  · intro k hk
    obtain ⟨p, q, hstate⟩ := roll_phase s dx dz hL hr k hk
    rw [hstate,
      show (k : ℚ) * rollSpeed = (k : ℚ)/20 from by rw [rollSpeed]; ring]
  · rw [roll_done s dx dz hL hr]

/-- Witness for C10 at `freshRollState`. -/
theorem roll_terminates_in_ten_witness :
    ((animate)^[10] freshRollState).rolling = none :=
  (roll_terminates_in_ten freshRollState 1 0 rfl rfl).2

/-! ### C6: the left / left scenario -/

/-- C6.  After landing (frame 90) the cube sits at grid `(0, -1)`; a request
`rollCube(-1, 0)` is accepted; after the roll completes the grid position is
`(-1, -1)`; a further `rollCube(-1, 0)` is rejected — it would move the
center to `-2`, past the bound `largeCubeSize/2 - cubeSize/2 = 1` — leaving
the state unchanged. -/
theorem scenario_left_then_left :
    ((animate)^[90] initState).landed = true ∧
    ((animate)^[90] initState).cubeX = 0 ∧
    ((animate)^[90] initState).cubeZ = -1 ∧
    (rollCube ((animate)^[90] initState) (-1) 0).rolling = some ⟨-1, 0, 0⟩ ∧
    ((animate)^[10] (rollCube ((animate)^[90] initState) (-1) 0)).cubeX = -1 ∧
    ((animate)^[10] (rollCube ((animate)^[90] initState) (-1) 0)).cubeZ = -1 ∧
    ((animate)^[10] (rollCube ((animate)^[90] initState) (-1) 0)).rolling
      = none ∧
    rollCube ((animate)^[10] (rollCube ((animate)^[90] initState) (-1) 0))
        (-1) 0 =
      (animate)^[10] (rollCube ((animate)^[90] initState) (-1) 0) := by
  rw [fall_landed]
  have hacc :
      rollCube
        { time := 3/2, landed := true, rolling := none, cubeX := 0,
          cubeZ := -1, cubePos := ⟨0, (targetY : ℝ), -1⟩,
          cubeRot := ⟨0, 0, 0⟩ } (-1) 0 =
      { time := 3/2, landed := true, rolling := some ⟨-1, 0, 0⟩, cubeX := 0,
        cubeZ := -1, cubePos := ⟨0, (targetY : ℝ), -1⟩,
        cubeRot := ⟨0, 0, 0⟩ } := by
    simp only [rollCube]
    rw [if_neg (by simp), if_neg (by rw [largeCubeSize, cubeSize]; norm_num)]
  rw [hacc]
  have hdone := roll_done
    { time := 3/2, landed := true, rolling := some ⟨-1, 0, 0⟩, cubeX := 0,
      cubeZ := -1, cubePos := ⟨0, (targetY : ℝ), -1⟩, cubeRot := ⟨0, 0, 0⟩ }
    (-1) 0 rfl rfl
  rw [hdone]
  refine ⟨rfl, rfl, rfl, rfl, by rw [cubeSize]; norm_num,
    by rw [cubeSize]; norm_num, rfl, ?_⟩
  simp only [rollCube]
  rw [if_neg (by simp), if_pos (by rw [largeCubeSize, cubeSize]; norm_num)]

/-! ### C3: the bounce easing curve

Each of the four branch formulas is also valid at the closed right end of
its segment (the adjacent branch takes the same value there), which gives
continuity at the three breakpoints and lets the branches be compared.  The
claim that the curve is non-decreasing *within each* segment is false:
segments 2–4 are upward parabolas whose vertex lies inside the segment, so
each dips (that is the bounce).  The counterexample uses segment 2. -/

lemma easeOutBounce_seg1 (x : ℝ) (hx : x ≤ 1/2.75) :
    easeOutBounce x = 7.5625 * x * x := by
  rcases lt_or_eq_of_le hx with hlt | hx1
  · simp only [easeOutBounce]
    rw [if_pos hlt]
  · subst hx1
    simp only [easeOutBounce]
    rw [if_neg (by norm_num), if_pos (by norm_num)]
    norm_num

lemma easeOutBounce_seg2 (x : ℝ) (h1 : 1/2.75 ≤ x) (h2 : x ≤ 2/2.75) :
    easeOutBounce x = 7.5625 * (x - 1.5/2.75) * (x - 1.5/2.75) + 0.75 := by
  rcases lt_or_eq_of_le h2 with hlt | hx2
  · simp only [easeOutBounce]
    rw [if_neg (not_lt.mpr h1), if_pos hlt]
  · subst hx2
    simp only [easeOutBounce]
    rw [if_neg (by norm_num), if_neg (by norm_num), if_pos (by norm_num)]
    norm_num

lemma easeOutBounce_seg3 (x : ℝ) (h1 : 2/2.75 ≤ x) (h2 : x ≤ 2.5/2.75) :
    easeOutBounce x = 7.5625 * (x - 2.25/2.75) * (x - 2.25/2.75) + 0.9375 := by
  have h0 : ¬x < 1/2.75 := not_lt.mpr (le_trans (by norm_num) h1)
  rcases lt_or_eq_of_le h2 with hlt | hx2
  · simp only [easeOutBounce]
    rw [if_neg h0, if_neg (not_lt.mpr h1), if_pos hlt]
  · subst hx2
    simp only [easeOutBounce]
    rw [if_neg (by norm_num), if_neg (by norm_num), if_neg (by norm_num)]
    norm_num

lemma easeOutBounce_seg4 (x : ℝ) (h1 : 2.5/2.75 ≤ x) :
    easeOutBounce x
      = 7.5625 * (x - 2.625/2.75) * (x - 2.625/2.75) + 0.984375 := by
  simp only [easeOutBounce]
  rw [if_neg (not_lt.mpr (le_trans (by norm_num) h1)),
    if_neg (not_lt.mpr (le_trans (by norm_num) h1)),
    if_neg (not_lt.mpr h1)]

lemma cwa_left (f p : ℝ → ℝ) (c a : ℝ) (hc : c < a) (hp : Continuous p)
    (heq : ∀ x, c < x → x ≤ a → f x = p x) :
    ContinuousWithinAt f (Set.Iic a) a := by
  refine (hp.continuousWithinAt).congr_of_eventuallyEq ?_ (heq a hc le_rfl)
  have h1 : Set.Ioi c ∈ nhdsWithin a (Set.Iic a) :=
    mem_nhdsWithin_of_mem_nhds (Ioi_mem_nhds hc)
  filter_upwards [h1, self_mem_nhdsWithin] with x hx1 hx2
  exact heq x hx1 hx2

lemma cwa_right (f p : ℝ → ℝ) (a b : ℝ) (hb : a < b) (hp : Continuous p)
    (heq : ∀ x, a ≤ x → x < b → f x = p x) :
    ContinuousWithinAt f (Set.Ici a) a := by
  refine (hp.continuousWithinAt).congr_of_eventuallyEq ?_ (heq a le_rfl hb)
  have h1 : Set.Iio b ∈ nhdsWithin a (Set.Ici a) :=
    mem_nhdsWithin_of_mem_nhds (Iio_mem_nhds hb)
  filter_upwards [h1, self_mem_nhdsWithin] with x hx1 hx2
  exact heq x hx2 hx1

lemma continuousAt_bounce_b1 : ContinuousAt easeOutBounce (1/2.75) := by
  rw [continuousAt_iff_continuous_left_right]
  constructor
  · exact cwa_left easeOutBounce (fun t => 7.5625 * t * t) 0 (1/2.75)
      (by norm_num) (by fun_prop) (fun x _ hxa => easeOutBounce_seg1 x hxa)
  · exact cwa_right easeOutBounce
      (fun t => 7.5625 * (t - 1.5/2.75) * (t - 1.5/2.75) + 0.75)
      (1/2.75) (2/2.75) (by norm_num) (by fun_prop)
      (fun x hax hxb => easeOutBounce_seg2 x hax (le_of_lt hxb))

lemma continuousAt_bounce_b2 : ContinuousAt easeOutBounce (2/2.75) := by
  rw [continuousAt_iff_continuous_left_right]
  constructor
  · exact cwa_left easeOutBounce
      (fun t => 7.5625 * (t - 1.5/2.75) * (t - 1.5/2.75) + 0.75)
      (1/2.75) (2/2.75) (by norm_num) (by fun_prop)
      (fun x hcx hxa => easeOutBounce_seg2 x (le_of_lt hcx) hxa)
  · exact cwa_right easeOutBounce
      (fun t => 7.5625 * (t - 2.25/2.75) * (t - 2.25/2.75) + 0.9375)
      (2/2.75) (2.5/2.75) (by norm_num) (by fun_prop)
      (fun x hax hxb => easeOutBounce_seg3 x hax (le_of_lt hxb))

lemma continuousAt_bounce_b3 : ContinuousAt easeOutBounce (2.5/2.75) := by
  rw [continuousAt_iff_continuous_left_right]
  constructor
  · exact cwa_left easeOutBounce
      (fun t => 7.5625 * (t - 2.25/2.75) * (t - 2.25/2.75) + 0.9375)
      (2/2.75) (2.5/2.75) (by norm_num) (by fun_prop)
      (fun x hcx hxa => easeOutBounce_seg3 x (le_of_lt hcx) hxa)
  · exact cwa_right easeOutBounce
      (fun t => 7.5625 * (t - 2.625/2.75) * (t - 2.625/2.75) + 0.984375)
      (2.5/2.75) 2 (by norm_num) (by fun_prop)
      (fun x hax _ => easeOutBounce_seg4 x hax)

lemma bounce_mono_seg1 : MonotoneOn easeOutBounce (Set.Icc 0 (1/2.75)) := by
  intro x hx y hy hxy
  rw [easeOutBounce_seg1 x hx.2, easeOutBounce_seg1 y hy.2]
  nlinarith [hx.1, hxy]

lemma easeOutBounce_one : easeOutBounce 1 = 1 := by
  rw [easeOutBounce_seg4 1 (by norm_num)]
  norm_num

/-- Counterexample to C3 as stated: `t₁ = 4/11 = 1/2.75` and `t₂ = 6/11`
both lie in the second segment `[1/2.75, 2/2.75)` with `t₁ ≤ t₂`, yet
`easeOutBounce t₂ < easeOutBounce t₁` — the curve dips inside the segment,
so it is not monotonically non-decreasing within each segment. -/
theorem bounce_not_monotone_in_segment :
    (1/2.75 : ℝ) ≤ 4/11 ∧ (4 : ℝ)/11 ≤ 6/11 ∧ (6 : ℝ)/11 < 2/2.75 ∧
    easeOutBounce (6/11) < easeOutBounce (4/11) := by
  refine ⟨by norm_num, by norm_num, by norm_num, ?_⟩
  rw [easeOutBounce_seg2 (6/11) (by norm_num) (by norm_num),
    easeOutBounce_seg2 (4/11) (by norm_num) (by norm_num)]
  norm_num

/-- C3 (amended).  `easeOutBounce` is continuous at its three breakpoints
`1/2.75`, `2/2.75`, `2.5/2.75` and returns exactly `1` at `t = 1`, and it is
monotonically non-decreasing within the **first** segment; within each of
the remaining three segments it is *not* monotone (each dips to an interior
minimum — see the counterexample). -/
theorem bounce_curve_props :
    ContinuousAt easeOutBounce (1/2.75) ∧
    ContinuousAt easeOutBounce (2/2.75) ∧
    ContinuousAt easeOutBounce (2.5/2.75) ∧
    MonotoneOn easeOutBounce (Set.Icc 0 (1/2.75)) ∧
    easeOutBounce 1 = 1 :=
  ⟨continuousAt_bounce_b1, continuousAt_bounce_b2, continuousAt_bounce_b3,
    bounce_mono_seg1, easeOutBounce_one⟩

/-! ### C9: the grid position never leaves the platform -/

/-- C9.  In every reachable state the grid coordinates are integers and obey
the platform bound `largeCubeSize/2 - cubeSize/2 = 1`, under any sequence of
key presses and frame updates. -/
theorem grid_on_platform (s : State) (hs : Reachable s) :
    (∃ m : ℤ, s.cubeX = (m : ℚ)) ∧ (∃ n : ℤ, s.cubeZ = (n : ℚ)) ∧
    |s.cubeX| ≤ largeCubeSize / 2 - cubeSize / 2 ∧
    |s.cubeZ| ≤ largeCubeSize / 2 - cubeSize / 2 := by
  obtain ⟨hx, hz, hbx, hbz, _, _, _⟩ := reachable_inv s hs
  have hb1 : largeCubeSize / 2 - cubeSize / 2 = 1 := by
    rw [largeCubeSize, cubeSize]; norm_num
  rw [hb1]
  exact ⟨hx, hz, hbx, hbz⟩

/-- Witness for C9 at the initial state. -/
theorem grid_on_platform_witness :
    (∃ m : ℤ, initState.cubeX = (m : ℚ)) ∧
    (∃ n : ℤ, initState.cubeZ = (n : ℚ)) ∧
    |initState.cubeX| ≤ largeCubeSize / 2 - cubeSize / 2 ∧
    |initState.cubeZ| ≤ largeCubeSize / 2 - cubeSize / 2 :=
  grid_on_platform initState Reachable.init

/-! ### C4: rest state after landing

As stated — "in every reachable state with `time ≥ fallDuration`,
`position.y = targetY` and the rotation is zero" — the claim fails: a state
in the middle of a roll is reachable, has `time = fallDuration`, and its
`position.y` exceeds `targetY` (the cube is pivoting).  The counterexample
below exhibits such a state; the amended claim additionally requires that no
roll is in progress. -/

lemma keyDir_s : keyDir 0 1 := Or.inr (Or.inl ⟨rfl, rfl⟩)

/-- The visual angle one frame into a fresh roll is `19π/2000`. -/
lemma rollTheta_first : rollTheta (0 + rollSpeed) = 19 / 2000 * Real.pi := by
  rw [rollTheta, rollSpeed, maxAngle,
    show min ((0 : ℚ) + 1 / 20) (1 / 2) = 1 / 20 from by norm_num,
    easeOutQuad]
  push_cast
  ring_nf

lemma sin_rollTheta_first_pos : 0 < Real.sin (rollTheta (0 + rollSpeed)) := by
  rw [rollTheta_first]
  apply Real.sin_pos_of_pos_of_lt_pi
  · positivity
  · nlinarith [Real.pi_pos]

/-- Counterexample to C4 as stated: one frame after the landed cube accepts
a roll towards positive z, the state is reachable and has
`time ≥ fallDuration`, but `position.y ≠ targetY`. -/
theorem rest_claim_fails_mid_roll :
    Reachable (animate (rollCube ((animate)^[90] initState) 0 1)) ∧
    fallDuration ≤ (animate (rollCube ((animate)^[90] initState) 0 1)).time ∧
    (animate (rollCube ((animate)^[90] initState) 0 1)).cubePos.y ≠
      (targetY : ℝ) := by
  have hacc : rollCube
      { time := 3/2, landed := true, rolling := none, cubeX := 0, cubeZ := -1,
        cubePos := ⟨0, (targetY : ℝ), -1⟩, cubeRot := ⟨0, 0, 0⟩ } 0 1 =
      { time := 3/2, landed := true, rolling := some ⟨0, 1, 0⟩, cubeX := 0,
        cubeZ := -1, cubePos := ⟨0, (targetY : ℝ), -1⟩,
        cubeRot := ⟨0, 0, 0⟩ } :=
    rollCube_accepted _ 0 1 (by simp)
      (by rw [largeCubeSize, cubeSize]; norm_num)
  refine ⟨Reachable.frame (Reachable.key keyDir_s
    (reachable_iterate 90 initState Reachable.init)), ?_, ?_⟩
  · rw [fall_landed, hacc, animate, fallFrame_landed _ rfl,
      rollFrame_mid _ ⟨0, 1, 0⟩ rfl freshRoll_angle]
    show fallDuration ≤ (3 / 2 : ℚ)
    rw [fallDuration]
    norm_num
  · rw [fall_landed, hacc, animate, fallFrame_landed _ rfl,
      rollFrame_mid _ ⟨0, 1, 0⟩ rfl freshRoll_angle]
    show (targetY : ℝ) + ((cubeSize : ℝ) / 2) *
        Real.sin (rollTheta (0 + rollSpeed)) ≠ (targetY : ℝ)
    have h2 : (0 : ℝ) < (cubeSize : ℝ) / 2 := by
      rw [cubeSize]; norm_num
    have h3 := mul_pos h2 sin_rollTheta_first_pos
    intro heq
    linarith

/-- C4 (amended).  In every reachable state in which the elapsed time has
reached `fallDuration` **and no roll is in progress**, `position.y` equals
`targetY` exactly and all three rotation components are exactly zero.  (The
original claim, without the idleness condition, is refuted by
a mid-roll state.) -/
theorem landed_idle_rest (s : State) (hs : Reachable s)
    (ht : fallDuration ≤ s.time) (hr : s.rolling = none) :
    s.cubePos.y = (targetY : ℝ) ∧ s.cubeRot.x = 0 ∧ s.cubeRot.y = 0 ∧
    s.cubeRot.z = 0 := by
  obtain ⟨_, _, _, _, hfall, _, hrest⟩ := reachable_inv s hs
  by_cases hL : s.landed = true
  · obtain ⟨hy, hrot⟩ := hrest hL hr
    exact ⟨hy, by rw [hrot], by rw [hrot], by rw [hrot]⟩
  · have hL' : s.landed = false := by simpa using hL
    obtain ⟨hlt, _⟩ := hfall hL'
    exact absurd ht (not_le.mpr hlt)

lemma landState_time_ge : fallDuration ≤ ((animate)^[90] initState).time := by
  rw [fall_landed, fallDuration]
  norm_num

lemma landState_rolling : ((animate)^[90] initState).rolling = none := by
  rw [fall_landed]

/-- Witness for the amended C4 at the state right after landing. -/
theorem landed_idle_rest_witness :
    ((animate)^[90] initState).cubePos.y = (targetY : ℝ) ∧
    ((animate)^[90] initState).cubeRot.x = 0 ∧
    ((animate)^[90] initState).cubeRot.y = 0 ∧
    ((animate)^[90] initState).cubeRot.z = 0 :=
  landed_idle_rest ((animate)^[90] initState)
    (reachable_iterate 90 initState Reachable.init)
    landState_time_ge landState_rolling

/-- A concrete view state of the falling variant, for the resize witness. -/
def sampleSystem : System := ⟨initState, 1, 640, 480⟩

/-- A concrete view state of the spinning variant, for the resize witness. -/
def sampleSpinSystem : Spin.System := ⟨0, 0, 1, 640, 480⟩

/-- Witness for C8 at `(w, h) = (16, 9)`. -/
theorem resize_exact_witness :
    (handleResize 16 9 sampleSystem).aspect = 16 / 9 ∧
    (handleResize 16 9 sampleSystem).rendererWidth = 16 ∧
    (handleResize 16 9 sampleSystem).rendererHeight = 9 ∧
    (handleResize 16 9 sampleSystem).anim = sampleSystem.anim ∧
    (Spin.handleResize 16 9 sampleSpinSystem).aspect = 16 / 9 ∧
    (Spin.handleResize 16 9 sampleSpinSystem).rendererWidth = 16 ∧
    (Spin.handleResize 16 9 sampleSpinSystem).rendererHeight = 9 ∧
    (Spin.handleResize 16 9 sampleSpinSystem).rotX = sampleSpinSystem.rotX ∧
    (Spin.handleResize 16 9 sampleSpinSystem).rotY = sampleSpinSystem.rotY :=
  resize_exact 16 9 sampleSystem sampleSpinSystem (by simp)

end GameCube
